import Mathlib

/-!
Verification of the core of root-simple-mcmc (TSimpleMCMC.H): the
Metropolis-Hastings driver TSimpleMCMC::Step and the adaptive proposal
TProposeAdaptiveStep.  Parameters (C++ double) are modelled as rationals;
log-likelihood values, which the code lets reach IEEE infinities, are
modelled by the three-case type Xd below, with NaN-producing subtractions
(inf minus inf) mapped to none and IEEE comparison semantics (every
comparison with NaN is false).
-/

namespace SimpleMCMC

/-- Extended log-likelihood value: an IEEE double that is minus infinity, a
finite value, or plus infinity (NaN is represented at use sites by Option). -/
inductive Xd where
  | negInf : Xd
  | fin : ℚ → Xd
  | posInf : Xd
deriving DecidableEq

/-- IEEE subtraction on extended values; none models NaN (inf − inf). -/
def Xd.sub : Xd → Xd → Option Xd
  | negInf, negInf => none
  | negInf, _ => some negInf
  | posInf, posInf => none
  | posInf, _ => some posInf
  | fin _, negInf => some posInf
  | fin _, posInf => some negInf
  | fin a, fin b => some (fin (a - b))

/-- Strict IEEE comparison on extended values. -/
def Xd.lt : Xd → Xd → Bool
  | negInf, negInf => false
  | negInf, _ => true
  | _, negInf => false
  | posInf, _ => false
  | fin _, posInf => true
  | fin a, fin b => decide (a < b)

/-- Non-strict IEEE comparison on extended values. -/
def Xd.le : Xd → Xd → Bool
  | negInf, _ => true
  | _, posInf => true
  | fin a, fin b => decide (a ≤ b)
  | _, _ => false

/-- Strict comparison lifted to possibly-NaN values: in IEEE arithmetic every
comparison against NaN is false, which the accept test of Step relies on. -/
def OXd.lt : Option Xd → Option Xd → Bool
  | some a, some b => Xd.lt a b
  | _, _ => false

/-- Driver state of TSimpleMCMC: the fields fAccepted, fAcceptedLogLikelihood,
fTrialStep, fProposed and fProposedLogLikelihood. -/
structure MCMCState where
  accepted : List ℚ
  acceptedLogLikelihood : Xd
  trialStep : List ℚ
  proposed : List ℚ
  proposedLogLikelihood : Xd
deriving DecidableEq

/-- Generic embedding of a C++ loop for (i = 0; i < n; ++i) over a vector that,
when the guard c i holds, overwrites index i with f i applied to the current
entry, and otherwise leaves the entry alone. -/
def updLoop (c : ℕ → Bool) (f : ℕ → ℚ → ℚ) (n : ℕ) (l : List ℚ) : List ℚ :=
  (List.range n).foldl (fun acc i => if c i then acc.set i (f i (acc.getD i 0)) else acc) l

/-- Lines 191-193 of TSimpleMCMC::Step: for every index i below the proposed
vector's size, fTrialStep[i] = fProposed[i] - fAccepted[i]. -/
def computeTrialStep (proposed accepted trialStep : List ℚ) : List ℚ :=
  updLoop (fun _ => true) (fun i _ => proposed.getD i 0 - accepted.getD i 0)
    proposed.length trialStep

/-- Modelled from the spec: the accept test draws u from the external random
source (uniform() with values in [0,1)) and takes trial = std::log(u), relying
on IEEE log(0) = -inf.  The finite part of the logarithm is abstracted by the
function lnVal, since no driver claim depends on its numeric value. -/
def stepTrial (lnVal : ℚ → ℚ) (u : ℚ) : Xd :=
  if u = 0 then Xd.negInf else Xd.fin (lnVal u)

/-- State written by the accepting branch of Step (lines 213-215): the proposed
point and its log-likelihood are copied into the accepted ones. -/
def acceptState (lp : Xd) (proposed trialStep : List ℚ) : MCMCState :=
  { accepted := proposed, acceptedLogLikelihood := lp, trialStep := trialStep,
    proposed := proposed, proposedLogLikelihood := lp }

/-- State written by the rejecting branch of Step (lines 204-210): fProposed,
fProposedLogLikelihood and (when save) fTrialStep change, nothing else. -/
def rejectState (st : MCMCState) (lp : Xd) (proposed trialStep : List ℚ) : MCMCState :=
  { st with proposed := proposed, proposedLogLikelihood := lp, trialStep := trialStep }

/-- Lines 189-194 of Step: the trial step is recomputed only when save holds;
otherwise fTrialStep keeps its previous contents. -/
def stepTrialStepVal (save : Bool) (newProposed : List ℚ) (st : MCMCState) : List ℚ :=
  if save then computeTrialStep newProposed st.accepted st.trialStep else st.trialStep

/-- TSimpleMCMC::Step (lines 181-220).  The user likelihood L and the proposal
output newProposed (the vector the UserProposal functor writes into fProposed)
are parameters; u is the uniform draw consumed by the accept test.  Except
models the C++ throw on the empty-vector precondition (line 184). -/
def Step (L : List ℚ → Xd) (lnVal : ℚ → ℚ) (u : ℚ) (newProposed : List ℚ)
    (save : Bool) (st : MCMCState) : Except Unit (Bool × MCMCState) :=
  if st.proposed.isEmpty || st.accepted.isEmpty then Except.error ()
  else if OXd.lt (Xd.sub (L newProposed) st.acceptedLogLikelihood) (some (Xd.fin 0)) then
    if OXd.lt (Xd.sub (L newProposed) st.acceptedLogLikelihood)
        (some (stepTrial lnVal u)) then
      Except.ok (false,
        rejectState st (L newProposed) newProposed (stepTrialStepVal save newProposed st))
    else
      Except.ok (true,
        acceptState (L newProposed) newProposed (stepTrialStepVal save newProposed st))
  else
    Except.ok (true,
      acceptState (L newProposed) newProposed (stepTrialStepVal save newProposed st))

/-- TSimpleMCMC::Start (lines 163-176): both vectors are set to the start
point, fTrialStep is resized (filled with zeros from a fresh sampler), and the
likelihood at the start point becomes both the proposed and accepted value. -/
def Start (L : List ℚ → Xd) (start : List ℚ) : MCMCState :=
  { accepted := start, acceptedLogLikelihood := L start,
    trialStep := List.replicate start.length 0,
    proposed := start, proposedLogLikelihood := L start }

/-- Driver state before Start is called: both vectors are default-constructed
(empty); the value fields are indeterminate in C++ and modelled as 0. -/
def emptyMCMCState : MCMCState :=
  { accepted := [], acceptedLogLikelihood := Xd.fin 0, trialStep := [],
    proposed := [], proposedLogLikelihood := Xd.fin 0 }

theorem updLoop_succ (c : ℕ → Bool) (f : ℕ → ℚ → ℚ) (n : ℕ) (l : List ℚ) :
    updLoop c f (n + 1) l =
      (if c n then (updLoop c f n l).set n (f n ((updLoop c f n l).getD n 0))
       else updLoop c f n l) := by
  unfold updLoop
  rw [List.range_succ, List.foldl_append]
  rfl

theorem updLoop_length (c : ℕ → Bool) (f : ℕ → ℚ → ℚ) (n : ℕ) (l : List ℚ) :
    (updLoop c f n l).length = l.length := by
  induction n with
  | zero => rfl
  | succ n ih =>
    rw [updLoop_succ]
    by_cases h : c n <;> simp [h, ih]

theorem updLoop_getElem? (c : ℕ → Bool) (f : ℕ → ℚ → ℚ) (n : ℕ) (l : List ℚ) (j : ℕ) :
    (updLoop c f n l)[j]? =
      if j < n ∧ c j = true then (f j) <$> l[j]? else l[j]? := by
  induction n with
  | zero =>
    simp [updLoop]
  | succ n ih =>
    rw [updLoop_succ]
    by_cases hc : c n
    · rw [if_pos hc]
      by_cases hj : j = n
      · subst hj
        rw [List.getElem?_set_self']
        have hloop : (updLoop c f j l)[j]? = l[j]? := by
          rw [ih]
          simp
        have hD : (updLoop c f j l).getD j 0 = (l[j]?).getD 0 := by
          rw [List.getD_eq_getElem?_getD, hloop]
        rw [hloop, hD]
        have : (j < j + 1 ∧ c j = true) := ⟨Nat.lt_succ_self j, hc⟩
        rw [if_pos this]
        cases hx : l[j]? <;> simp
      · rw [List.getElem?_set_ne (fun h => hj h.symm), ih]
        have : (j < n + 1 ∧ c j = true) ↔ (j < n ∧ c j = true) := by
          constructor
          · rintro ⟨h1, h2⟩
            exact ⟨Nat.lt_of_le_of_ne (Nat.lt_succ_iff.mp h1) hj, h2⟩
          · rintro ⟨h1, h2⟩
            exact ⟨Nat.lt_succ_of_lt h1, h2⟩
        by_cases hcond : j < n ∧ c j = true
        · rw [if_pos hcond, if_pos (this.mpr hcond)]
        · rw [if_neg hcond, if_neg (fun h => hcond (this.mp h))]
    · rw [if_neg hc, ih]
      have : (j < n + 1 ∧ c j = true) ↔ (j < n ∧ c j = true) := by
        constructor
        · rintro ⟨h1, h2⟩
          rcases Nat.lt_succ_iff_lt_or_eq.mp h1 with h | h
          · exact ⟨h, h2⟩
          · subst h
            exact absurd h2 (by simp [hc])
        · rintro ⟨h1, h2⟩
          exact ⟨Nat.lt_succ_of_lt h1, h2⟩
      by_cases hcond : j < n ∧ c j = true
      · rw [if_pos hcond, if_pos (this.mpr hcond)]
      · rw [if_neg hcond, if_neg (fun h => hcond (this.mp h))]

theorem computeTrialStep_getElem? (p a ts : List ℚ) (j : ℕ) :
    (computeTrialStep p a ts)[j]? =
      if j < p.length then (fun _ => p.getD j 0 - a.getD j 0) <$> ts[j]? else ts[j]? := by
  unfold computeTrialStep
  rw [updLoop_getElem?]
  simp

theorem computeTrialStep_eq_zipWith (p a ts : List ℚ)
    (h1 : p.length = a.length) (h2 : p.length = ts.length) :
    computeTrialStep p a ts = List.zipWith (fun x y => x - y) p a := by
  apply List.ext_getElem?
  intro j
  rw [computeTrialStep_getElem?]
  by_cases hj : j < p.length
  · have hts : j < ts.length := h2 ▸ hj
    have haj : j < a.length := h1 ▸ hj
    rw [if_pos hj, List.getElem?_eq_getElem hts]
    rw [List.getElem?_zipWith]
    rw [List.getElem?_eq_getElem hj, List.getElem?_eq_getElem haj]
    simp [List.getD_eq_getElem?_getD, List.getElem?_eq_getElem hj,
      List.getElem?_eq_getElem haj]
  · have hts : ts.length ≤ j := by omega
    have hz : (List.zipWith (fun x y : ℚ => x - y) p a).length ≤ j := by
      rw [List.length_zipWith]
      omega
    rw [if_neg hj, List.getElem?_eq_none hts, List.getElem?_eq_none hz]

theorem Xd.le_sub_not_lt_zero (a b : Xd) (h : Xd.le a b = true) :
    OXd.lt (Xd.sub b a) (some (Xd.fin 0)) = false := by
  cases a <;> cases b <;>
    simp_all [Xd.le, Xd.sub, OXd.lt, Xd.lt]

/-- C1: whenever the proposed log-likelihood is at least the accepted one
(so delta is not negative), Step takes the accepting branch: it returns true
and copies the proposed point and its log-likelihood into the accepted point
and the accepted log-likelihood, for every uniform draw and save flag. -/
theorem Step_accepts_improvement (L : List ℚ → Xd) (lnVal : ℚ → ℚ) (u : ℚ)
    (newProposed : List ℚ) (save : Bool) (st : MCMCState)
    (hp : st.proposed ≠ []) (ha : st.accepted ≠ [])
    (hle : Xd.le st.acceptedLogLikelihood (L newProposed) = true) :
    ∃ st', Step L lnVal u newProposed save st = Except.ok (true, st') ∧
      st'.accepted = newProposed ∧ st'.acceptedLogLikelihood = L newProposed := by
  refine ⟨acceptState (L newProposed) newProposed (stepTrialStepVal save newProposed st),
    ?_, rfl, rfl⟩
  unfold Step
  rw [Xd.le_sub_not_lt_zero _ _ hle]
  simp [hp, ha]

/-- C1 witness: a concrete improving step (accepted value 0, proposed value 1)
is accepted and the proposed data is copied. -/
theorem Step_accepts_improvement_witness :
    Xd.le (Xd.fin 0) ((fun _ => Xd.fin 1) ([1] : List ℚ)) = true ∧
    (∃ st', Step (fun _ => Xd.fin 1) (fun _ => 0) (1/2) [1] false
        { accepted := [0], acceptedLogLikelihood := Xd.fin 0, trialStep := [0],
          proposed := [0], proposedLogLikelihood := Xd.fin 0 } =
        Except.ok (true, st') ∧
      st'.accepted = [1] ∧ st'.acceptedLogLikelihood = Xd.fin 1) :=
  ⟨by decide,
    Step_accepts_improvement (fun _ => Xd.fin 1) (fun _ => 0) (1/2) [1] false
      { accepted := [0], acceptedLogLikelihood := Xd.fin 0, trialStep := [0],
        proposed := [0], proposedLogLikelihood := Xd.fin 0 }
      (by decide) (by decide) (by decide)⟩

/-- C2: on every rejecting step (delta negative and below the logged uniform
draw), Step returns false and the accepted point and accepted log-likelihood
hold exactly the values they held before the step. -/
theorem Step_reject_preserves_accepted (L : List ℚ → Xd) (lnVal : ℚ → ℚ) (u : ℚ)
    (newProposed : List ℚ) (save : Bool) (st : MCMCState)
    (hp : st.proposed ≠ []) (ha : st.accepted ≠ [])
    (hneg : OXd.lt (Xd.sub (L newProposed) st.acceptedLogLikelihood)
      (some (Xd.fin 0)) = true)
    (hrej : OXd.lt (Xd.sub (L newProposed) st.acceptedLogLikelihood)
      (some (stepTrial lnVal u)) = true) :
    ∃ st', Step L lnVal u newProposed save st = Except.ok (false, st') ∧
      st'.accepted = st.accepted ∧
      st'.acceptedLogLikelihood = st.acceptedLogLikelihood := by
  refine ⟨rejectState st (L newProposed) newProposed (stepTrialStepVal save newProposed st),
    ?_, rfl, rfl⟩
  unfold Step
  rw [hneg, hrej]
  simp [hp, ha]

/-- C2 witness: a concrete rejected step (delta = -1 below trial = -1/2)
returns false and leaves the accepted data untouched. -/
theorem Step_reject_preserves_accepted_witness :
    OXd.lt (Xd.sub (Xd.fin (-1)) (Xd.fin 0)) (some (Xd.fin 0)) = true ∧
    (∃ st', Step (fun _ => Xd.fin (-1)) (fun _ => -1/2) (1/2) [1] true
        { accepted := [0], acceptedLogLikelihood := Xd.fin 0, trialStep := [0],
          proposed := [0], proposedLogLikelihood := Xd.fin 0 } =
        Except.ok (false, st') ∧
      st'.accepted = [0] ∧ st'.acceptedLogLikelihood = Xd.fin 0) :=
  ⟨by simp [OXd.lt, Xd.sub, Xd.lt],
    Step_reject_preserves_accepted (fun _ => Xd.fin (-1)) (fun _ => -1/2) (1/2) [1] true
      { accepted := [0], acceptedLogLikelihood := Xd.fin 0, trialStep := [0],
        proposed := [0], proposedLogLikelihood := Xd.fin 0 }
      (by decide) (by decide)
      (by simp [OXd.lt, Xd.sub, Xd.lt])
      (by simp [OXd.lt, Xd.sub, Xd.lt, stepTrial]; norm_num)⟩

/-- C3 (amended): when the user likelihood returns minus infinity at the
proposed point and the accepted log-likelihood is finite (delta = -inf), the
step rejects for every NONZERO uniform draw; a draw of exactly 0 is the one
exception (see the counterexample). -/
theorem Step_negInf_rejects (L : List ℚ → Xd) (lnVal : ℚ → ℚ) (u : ℚ)
    (newProposed : List ℚ) (save : Bool) (st : MCMCState) (a : ℚ)
    (hp : st.proposed ≠ []) (ha : st.accepted ≠ [])
    (hL : L newProposed = Xd.negInf) (hacc : st.acceptedLogLikelihood = Xd.fin a)
    (hu : u ≠ 0) :
    ∃ st', Step L lnVal u newProposed save st = Except.ok (false, st') := by
  refine ⟨rejectState st (L newProposed) newProposed
    (stepTrialStepVal save newProposed st), ?_⟩
  unfold Step
  have h1 : Xd.sub (L newProposed) st.acceptedLogLikelihood = some Xd.negInf := by
    rw [hL, hacc]
    rfl
  have h2 : stepTrial lnVal u = Xd.fin (lnVal u) := by
    unfold stepTrial
    rw [if_neg hu]
  rw [h1, h2]
  simp [hp, ha, OXd.lt, Xd.lt]

/-- C3 witness: a concrete minus-infinity proposal with the nonzero draw 1/2
is rejected. -/
theorem Step_negInf_rejects_witness :
    (1/2 : ℚ) ≠ 0 ∧
    (∃ st', Step (fun _ => Xd.negInf) (fun _ => 0) (1/2) [1] false
        { accepted := [0], acceptedLogLikelihood := Xd.fin 0, trialStep := [0],
          proposed := [0], proposedLogLikelihood := Xd.fin 0 } =
      Except.ok (false, st')) :=
  ⟨by norm_num,
    Step_negInf_rejects (fun _ => Xd.negInf) (fun _ => 0) (1/2) [1] false
      { accepted := [0], acceptedLogLikelihood := Xd.fin 0, trialStep := [0],
        proposed := [0], proposedLogLikelihood := Xd.fin 0 } 0
      (by decide) (by decide) rfl rfl (by norm_num)⟩

/-- C3 counterexample: with the proposed log-likelihood minus infinity, the
accepted one finite, and the uniform draw exactly 0 (log 0 = -inf per the
spec's random-source interface with values in [0,1)), the rejection test
delta < trial compares -inf < -inf, which is false, so Step ACCEPTS the
zero-probability point and returns true, refuting that the step rejects
whatever value the uniform draw takes. -/
theorem Step_negInf_zero_draw_accepts :
    Step (fun _ => Xd.negInf) (fun _ => 0) 0 [1] false
      { accepted := [0], acceptedLogLikelihood := Xd.fin 0, trialStep := [0],
        proposed := [0], proposedLogLikelihood := Xd.fin 0 } =
      Except.ok (true,
        { accepted := [1], acceptedLogLikelihood := Xd.negInf, trialStep := [0],
          proposed := [1], proposedLogLikelihood := Xd.negInf }) := by
  rfl

/-- C10: whenever the no-start precondition holds, Step succeeds and the
resulting trial-step vector is the elementwise difference of the proposed
point and the pre-step accepted point exactly when save is true; when save is
false it keeps whatever contents it had before the step. -/
theorem Step_trialStep_only_when_save (L : List ℚ → Xd) (lnVal : ℚ → ℚ) (u : ℚ)
    (newProposed : List ℚ) (save : Bool) (st : MCMCState)
    (hp : st.proposed ≠ []) (ha : st.accepted ≠ [])
    (h1 : newProposed.length = st.accepted.length)
    (h2 : newProposed.length = st.trialStep.length) :
    ∃ r st', Step L lnVal u newProposed save st = Except.ok (r, st') ∧
      st'.trialStep =
        (if save then List.zipWith (fun x y => x - y) newProposed st.accepted
         else st.trialStep) := by
  have hts : stepTrialStepVal save newProposed st =
      (if save then List.zipWith (fun x y => x - y) newProposed st.accepted
       else st.trialStep) := by
    unfold stepTrialStepVal
    by_cases hs : save <;>
      simp [hs, computeTrialStep_eq_zipWith newProposed st.accepted st.trialStep h1 h2]
  by_cases hneg : OXd.lt (Xd.sub (L newProposed) st.acceptedLogLikelihood)
      (some (Xd.fin 0)) = true
  · by_cases hrej : OXd.lt (Xd.sub (L newProposed) st.acceptedLogLikelihood)
        (some (stepTrial lnVal u)) = true
    · refine ⟨false, rejectState st (L newProposed) newProposed
        (stepTrialStepVal save newProposed st), ?_, hts⟩
      unfold Step
      rw [hneg, hrej]
      simp [hp, ha]
    · refine ⟨true, acceptState (L newProposed) newProposed
        (stepTrialStepVal save newProposed st), ?_, hts⟩
      rw [Bool.not_eq_true] at hrej
      unfold Step
      rw [hneg, hrej]
      simp [hp, ha]
  · refine ⟨true, acceptState (L newProposed) newProposed
      (stepTrialStepVal save newProposed st), ?_, hts⟩
    rw [Bool.not_eq_true] at hneg
    unfold Step
    rw [hneg]
    simp [hp, ha]

/-- C10 witness: a concrete saving step records the difference of the proposed
and pre-step accepted points. -/
theorem Step_trialStep_only_when_save_witness :
    ([2] : List ℚ).length = ([1] : List ℚ).length ∧
    (∃ r st', Step (fun _ => Xd.fin 1) (fun _ => 0) (1/2) [2] true
        { accepted := [1], acceptedLogLikelihood := Xd.fin 0, trialStep := [0],
          proposed := [1], proposedLogLikelihood := Xd.fin 0 } =
        Except.ok (r, st') ∧
      st'.trialStep = (if true then List.zipWith (fun x y : ℚ => x - y) [2] [1]
        else [0])) :=
  ⟨by decide,
    Step_trialStep_only_when_save (fun _ => Xd.fin 1) (fun _ => 0) (1/2) [2] true
      { accepted := [1], acceptedLogLikelihood := Xd.fin 0, trialStep := [0],
        proposed := [1], proposedLogLikelihood := Xd.fin 0 }
      (by decide) (by decide) (by decide) (by decide)⟩

/-- Per-dimension proposal type of TProposeAdaptiveStep: type 0 is Gaussian
(param1 holds a variance hint), type 1 is Uniform (param1, param2 the bounds);
the default constructor gives type 0 with zero parameters. -/
structure ProposalType where
  type : ℕ
  param1 : ℚ
  param2 : ℚ
deriving DecidableEq

instance : Inhabited ProposalType := ⟨⟨0, 0, 0⟩⟩

/-- Configuration part of the adaptive-proposal state touched by SetDim,
SetUniform and SetGaussian: fLastPoint and fProposalType. -/
structure EngineConfig where
  lastPoint : List ℚ
  proposalType : List ProposalType
deriving DecidableEq

/-- TProposeAdaptiveStep::SetDim (lines 358-367): when the dimensionality is
already set (fLastPoint nonempty) it prints an error and RETURNS with the
state unchanged (no throw); otherwise it resizes both vectors. -/
def SetDim (dim : ℕ) (cfg : EngineConfig) : Except Unit EngineConfig :=
  if !cfg.lastPoint.isEmpty then Except.ok cfg
  else Except.ok { cfg with lastPoint := List.replicate dim 0,
                            proposalType := List.replicate dim default }

/-- TProposeAdaptiveStep::SetUniform (lines 370-385): an out-of-range
dimension prints an error and RETURNS with the state unchanged (no throw). -/
def SetUniform (dim : ℤ) (minimum maximum : ℚ) (cfg : EngineConfig) :
    Except Unit EngineConfig :=
  if dim < 0 ∨ cfg.proposalType.length ≤ dim.toNat then Except.ok cfg
  else
    Except.ok
      { cfg with
        proposalType :=
          cfg.proposalType.set dim.toNat
            { type := 1, param1 := minimum, param2 := maximum } }

/-- TProposeAdaptiveStep::SetGaussian (lines 391-403): an out-of-range
dimension prints an error and RETURNS with the state unchanged (no throw);
in range it sets type 0 and stores sigma squared in param1. -/
def SetGaussian (dim : ℤ) (sigma : ℚ) (cfg : EngineConfig) :
    Except Unit EngineConfig :=
  if dim < 0 ∨ cfg.proposalType.length ≤ dim.toNat then Except.ok cfg
  else
    Except.ok
      { cfg with
        proposalType :=
          cfg.proposalType.set dim.toNat
            { cfg.proposalType.getD dim.toNat default with
              type := 0, param1 := sigma * sigma } }

/-- Size sanity check at the top of TProposeAdaptiveStep::operator() (lines
325-330): differing proposal and current sizes THROW (modelled as error). -/
def adaptiveProposeGuard (proposal current : List ℚ) : Except Unit Unit :=
  if proposal.length ≠ current.length then Except.error () else Except.ok ()

/-- C5 (amended): calling Step before Start (both driver vectors empty) and a
proposal/current size mismatch in the adaptive proposal throw and so terminate
the sampler; but calling SetDim when the dimensionality is already set, and an
out-of-range dimension index to SetUniform or SetGaussian, are NOT fatal: they
print an error and return normally with the state unchanged. -/
theorem precondition_violations :
    (∀ (L : List ℚ → Xd) (lnVal : ℚ → ℚ) (u : ℚ) (p : List ℚ) (save : Bool),
      Step L lnVal u p save emptyMCMCState = Except.error ()) ∧
    (∀ proposal current : List ℚ, proposal.length ≠ current.length →
      adaptiveProposeGuard proposal current = Except.error ()) ∧
    (∀ (dim : ℕ) (cfg : EngineConfig), cfg.lastPoint ≠ [] →
      SetDim dim cfg = Except.ok cfg) ∧
    (∀ (dim : ℤ) (a b : ℚ) (cfg : EngineConfig),
      dim < 0 ∨ cfg.proposalType.length ≤ dim.toNat →
      SetUniform dim a b cfg = Except.ok cfg) ∧
    (∀ (dim : ℤ) (s : ℚ) (cfg : EngineConfig),
      dim < 0 ∨ cfg.proposalType.length ≤ dim.toNat →
      SetGaussian dim s cfg = Except.ok cfg) := by
  refine ⟨fun L lnVal u p save => rfl, ?_, ?_, ?_, ?_⟩
  · intro p c h
    unfold adaptiveProposeGuard
    rw [if_pos h]
  · intro dim cfg h
    unfold SetDim
    simp [h]
  · intro dim a b cfg h
    unfold SetUniform
    rw [if_pos h]
  · intro dim s cfg h
    unfold SetGaussian
    rw [if_pos h]

/-- C5 witness: concrete instances of all five guarded operations. -/
theorem precondition_violations_witness :
    Step (fun _ => Xd.fin 0) (fun _ => 0) 0 [1] true emptyMCMCState
      = Except.error () ∧
    adaptiveProposeGuard [0] [] = Except.error () ∧
    SetDim 3 { lastPoint := [0, 0], proposalType := [⟨0, 0, 0⟩, ⟨0, 0, 0⟩] } =
      Except.ok { lastPoint := [0, 0], proposalType := [⟨0, 0, 0⟩, ⟨0, 0, 0⟩] } ∧
    SetUniform (-1) 0 1 { lastPoint := [], proposalType := [] } =
      Except.ok { lastPoint := [], proposalType := [] } ∧
    SetGaussian 5 2 { lastPoint := [0], proposalType := [⟨0, 0, 0⟩] } =
      Except.ok { lastPoint := [0], proposalType := [⟨0, 0, 0⟩] } :=
  ⟨precondition_violations.1 _ _ _ _ _,
    precondition_violations.2.1 [0] [] (by decide),
    precondition_violations.2.2.1 3 _ (by decide),
    precondition_violations.2.2.2.1 (-1) 0 1 _ (Or.inl (by decide)),
    precondition_violations.2.2.2.2 5 2 _ (Or.inr (by decide))⟩

/-- C5 counterexample: a second call to SetDim on an engine whose
dimensionality is already set does not terminate the sampler: it returns
normally (with the state unchanged), refuting that every listed precondition
violation is fatal. -/
theorem SetDim_second_call_not_fatal :
    SetDim 3 { lastPoint := [0], proposalType := [⟨0, 0, 0⟩] } =
      Except.ok { lastPoint := [0], proposalType := [⟨0, 0, 0⟩] } := by
  rfl

/-- Accepted-move detection of TProposeAdaptiveStep::UpdateState (lines
621-624): accepted = (value != fLastValue || current[1] != fLastPoint[1]).
The C++ disjunction short-circuits, so index 1 of both vectors is read only
when the log-values are equal; none models that read being out of bounds. -/
def detectAccepted (value lastValue : ℚ) (current lastPoint : List ℚ) : Option Bool :=
  if value ≠ lastValue then some true
  else
    match current[1]?, lastPoint[1]? with
    | some c1, some l1 => some (decide (c1 ≠ l1))
    | _, _ => none

/-- C4 (amended): the accepted-move detection evaluates the index-1 accesses
only on invocations where the current log-value equals the stored last value
(the disjunction short-circuits); whenever they are evaluated they are in
bounds for dimensionality at least 2 and out of bounds for dimensionality 1. -/
theorem detectAccepted_index_bounds :
    (∀ (v lv : ℚ) (cur lp : List ℚ), v ≠ lv →
      detectAccepted v lv cur lp = some true) ∧
    (∀ (v : ℚ) (cur lp : List ℚ), 2 ≤ cur.length → 2 ≤ lp.length →
      (detectAccepted v v cur lp).isSome = true) ∧
    (∀ (v : ℚ) (cur lp : List ℚ), cur.length = 1 →
      detectAccepted v v cur lp = none) := by
  refine ⟨?_, ?_, ?_⟩
  · intro v lv cur lp h
    unfold detectAccepted
    rw [if_pos h]
  · intro v cur lp hc hl
    unfold detectAccepted
    rw [if_neg (by simp)]
    obtain ⟨c1, h1⟩ : ∃ x, cur[1]? = some x :=
      ⟨_, List.getElem?_eq_getElem (by omega)⟩
    obtain ⟨l1, h2⟩ : ∃ x, lp[1]? = some x :=
      ⟨_, List.getElem?_eq_getElem (by omega)⟩
    rw [h1, h2]
    rfl
  · intro v cur lp h
    unfold detectAccepted
    rw [if_neg (by simp)]
    rw [List.getElem?_eq_none (by omega)]

/-- C4 witness: with equal log-values a 2-dimensional invocation reads index 1
in bounds, and a 1-dimensional one performs the out-of-bounds access. -/
theorem detectAccepted_index_bounds_witness :
    2 ≤ ([3, 4] : List ℚ).length ∧
    (detectAccepted 0 0 [3, 4] [3, 4]).isSome = true ∧
    detectAccepted 5 5 [7] [9] = none :=
  ⟨by decide,
    detectAccepted_index_bounds.2.1 0 [3, 4] [3, 4] (by decide) (by decide),
    detectAccepted_index_bounds.2.2 5 [7] [9] (by decide)⟩

/-- C4 counterexample: a dimensionality-1 invocation whose log-value differs
from the stored one completes without any out-of-bounds access (the
disjunction short-circuits before reading index 1), refuting that the
detection reads index 1 on every invocation and that the access is out of
bounds whenever d = 1. -/
theorem detectAccepted_dim1_no_oob :
    detectAccepted 1 0 [5] [5] = some true := by
  decide

/-- Modelled from the spec: the external random source gRandom, with the two
primitives the core consumes.  The standard-normal draws Gaus(0,1) and the
raw uniform draws uniform() with values in [0,1) are modelled as two streams
read at incrementing counters, so theorems can count how many variates each
loop consumes. -/
structure Rng where
  gaussStream : ℕ → ℚ
  unifStream : ℕ → ℚ
  gCount : ℕ
  uCount : ℕ

/-- Modelled from the spec: gRandom->Gaus(0,1) returns the next value of the
standard-normal stream and advances it. -/
def drawGauss (r : Rng) : ℚ × Rng :=
  (r.gaussStream r.gCount, { r with gCount := r.gCount + 1 })

/-- Modelled from the spec: gRandom->Uniform(a,b) maps the next raw uniform
draw u in [0,1) to a + (b - a) * u and advances the stream. -/
def drawUniform (a b : ℚ) (r : Rng) : ℚ × Rng :=
  (a + (b - a) * r.unifStream r.uCount, { r with uCount := r.uCount + 1 })

/-- Entry of fProposalType read at index i; out-of-range reads (undefined
behaviour in C++, excluded by the length hypotheses of the theorems) are
totalised with the default Gaussian entry. -/
def ptypeAt (types : List ProposalType) (i : ℕ) : ProposalType :=
  types.getD i default

/-- Test fProposalType[i].type == 1 (the dimension is Uniform-typed). -/
def isUnif (types : List ProposalType) (i : ℕ) : Bool :=
  (ptypeAt types i).type == 1

/-- Inner j-loop of TProposeAdaptiveStep::operator() (lines 347-350): every
Uniform-typed column is skipped (continue), and every Gaussian-typed column j
receives proposal[j] += sigma * g * U(i,j) for the row's single draw g. -/
def gaussRowUpdate (types : List ProposalType) (sigma g : ℚ) (U : ℕ → ℕ → ℚ)
    (i : ℕ) (prop : List ℚ) : List ℚ :=
  updLoop (fun j => !(isUnif types j)) (fun j x => x + sigma * g * U i j)
    prop.length prop

/-- Body of one iteration of the outer i-loop of operator() (lines 337-351):
a Uniform-typed row overwrites proposal[i] with a fresh Uniform(min,max) draw
and continues; otherwise one standard-normal variate is drawn and shared by
the whole correlated row update. -/
def proposeRow (types : List ProposalType) (sigma : ℚ) (U : ℕ → ℕ → ℚ)
    (i : ℕ) (pr : List ℚ × Rng) : List ℚ × Rng :=
  if isUnif types i then
    let dr := drawUniform (ptypeAt types i).param1 (ptypeAt types i).param2 pr.2
    (pr.1.set i dr.1, dr.2)
  else
    let dg := drawGauss pr.2
    (gaussRowUpdate types sigma dg.1 U i pr.1, dg.2)

/-- Outer loop of operator() rows 0..k-1, started from the copied current
point. -/
def proposeLoopAux (types : List ProposalType) (sigma : ℚ) (U : ℕ → ℕ → ℚ)
    (k : ℕ) (current : List ℚ) (rng : Rng) : List ℚ × Rng :=
  (List.range k).foldl (fun pr i => proposeRow types sigma U i pr) (current, rng)

/-- Proposal generation of TProposeAdaptiveStep::operator() (lines 334-351):
copy current into proposal, then run the row loop over all dimensions.  The
cached state (fSigma, the Cholesky factor fDecomposition as U, and
fProposalType) enters as parameters. -/
def proposeStepBody (types : List ProposalType) (sigma : ℚ) (U : ℕ → ℕ → ℚ)
    (current : List ℚ) (rng : Rng) : List ℚ × Rng :=
  proposeLoopAux types sigma U current.length current rng

/-- Number of Uniform-typed dimensions among 0..k-1. -/
def unifCount (types : List ProposalType) (k : ℕ) : ℕ :=
  ((List.range k).filter fun i => isUnif types i).length

/-- Number of Gaussian-typed dimensions among 0..k-1. -/
def gaussCount (types : List ProposalType) (k : ℕ) : ℕ :=
  ((List.range k).filter fun i => !(isUnif types i)).length

/-- Total Gaussian contribution received by column j from the rows 0..k-1:
each Gaussian-typed row i adds sigma * g_i * U(i,j), where g_i is the single
standard-normal variate of row i (the one at position g0 + gaussCount i of
the stream), shared across the whole row. -/
def gaussContrib (types : List ProposalType) (sigma : ℚ) (U : ℕ → ℕ → ℚ)
    (g : ℕ → ℚ) (g0 : ℕ) (k j : ℕ) : ℚ :=
  ((List.range k).filter fun i => !(isUnif types i)).foldl
    (fun acc i => acc + sigma * g (g0 + gaussCount types i) * U i j) 0

/-- Value a Uniform-typed dimension j ends up with: its own fresh uniform
draw, the (unifCount j)-th uniform variate consumed by the loop, mapped into
[param1, param2). -/
def unifValue (types : List ProposalType) (us : ℕ → ℚ) (u0 j : ℕ) : ℚ :=
  (ptypeAt types j).param1 +
    ((ptypeAt types j).param2 - (ptypeAt types j).param1) * us (u0 + unifCount types j)

/-- Value of proposal[j] after the first k rows have been processed. -/
def mixedVal (types : List ProposalType) (sigma : ℚ) (U : ℕ → ℕ → ℚ)
    (rng : Rng) (current : List ℚ) (k j : ℕ) : ℚ :=
  if isUnif types j then
    (if j < k then unifValue types rng.unifStream rng.uCount j else current.getD j 0)
  else
    current.getD j 0 + gaussContrib types sigma U rng.gaussStream rng.gCount k j

theorem unifCount_succ (types : List ProposalType) (k : ℕ) :
    unifCount types (k + 1) =
      unifCount types k + (if isUnif types k then 1 else 0) := by
  unfold unifCount
  rw [List.range_succ, List.filter_append]
  by_cases h : isUnif types k <;> simp [h]

theorem gaussCount_succ (types : List ProposalType) (k : ℕ) :
    gaussCount types (k + 1) =
      gaussCount types k + (if isUnif types k then 0 else 1) := by
  unfold gaussCount
  rw [List.range_succ, List.filter_append]
  by_cases h : isUnif types k <;> simp [h]

theorem gaussContrib_succ (types : List ProposalType) (sigma : ℚ) (U : ℕ → ℕ → ℚ)
    (g : ℕ → ℚ) (g0 : ℕ) (k j : ℕ) :
    gaussContrib types sigma U g g0 (k + 1) j =
      (if isUnif types k then gaussContrib types sigma U g g0 k j
       else gaussContrib types sigma U g g0 k j +
         sigma * g (g0 + gaussCount types k) * U k j) := by
  unfold gaussContrib
  rw [List.range_succ, List.filter_append]
  by_cases h : isUnif types k <;> simp [h]

theorem proposeLoopAux_succ (types : List ProposalType) (sigma : ℚ)
    (U : ℕ → ℕ → ℚ) (k : ℕ) (current : List ℚ) (rng : Rng) :
    proposeLoopAux types sigma U (k + 1) current rng =
      proposeRow types sigma U k (proposeLoopAux types sigma U k current rng) := by
  unfold proposeLoopAux
  rw [List.range_succ, List.foldl_append]
  rfl

/-- Invariant of the outer proposal loop: after k rows the streams are
untouched, exactly gaussCount k standard-normal and unifCount k uniform
variates have been consumed, the length is preserved, and every entry below
the current length carries its characterised value. -/
theorem proposeLoopAux_spec (types : List ProposalType) (sigma : ℚ)
    (U : ℕ → ℕ → ℚ) (current : List ℚ) (rng : Rng) (k : ℕ) :
    (proposeLoopAux types sigma U k current rng).2.gaussStream = rng.gaussStream ∧
    (proposeLoopAux types sigma U k current rng).2.unifStream = rng.unifStream ∧
    (proposeLoopAux types sigma U k current rng).2.gCount =
      rng.gCount + gaussCount types k ∧
    (proposeLoopAux types sigma U k current rng).2.uCount =
      rng.uCount + unifCount types k ∧
    (proposeLoopAux types sigma U k current rng).1.length = current.length ∧
    (∀ j, j < current.length →
      (proposeLoopAux types sigma U k current rng).1[j]? =
        some (mixedVal types sigma U rng current k j)) := by
  induction k with
  | zero =>
    refine ⟨rfl, rfl, by simp [proposeLoopAux, gaussCount, unifCount],
      by simp [proposeLoopAux, gaussCount, unifCount], rfl, ?_⟩
    intro j hj
    unfold proposeLoopAux mixedVal
    simp only [List.range_zero, List.foldl_nil]
    rw [List.getElem?_eq_getElem hj]
    by_cases hu : isUnif types j
    · simp [hu, List.getD_eq_getElem?_getD, List.getElem?_eq_getElem hj]
    · simp [hu, gaussContrib, List.getD_eq_getElem?_getD, List.getElem?_eq_getElem hj]
  | succ k ih =>
    obtain ⟨ihg, ihu, ihgc, ihuc, ihlen, ihval⟩ := ih
    rw [proposeLoopAux_succ]
    unfold proposeRow
    by_cases hk : isUnif types k
    · rw [if_pos hk]
      unfold drawUniform
      refine ⟨ihg, ihu, ?_, ?_, ?_, ?_⟩
      · simpa [gaussCount_succ, hk] using ihgc
      · simp only [ihuc, unifCount_succ, hk, if_pos]
        omega
      · simpa [List.length_set] using ihlen
      · intro j hj
        by_cases hj' : j = k
        · subst hj'
          rw [List.getElem?_set_self (by omega)]
          unfold mixedVal
          rw [if_pos hk, if_pos (Nat.lt_succ_self j)]
          unfold unifValue
          rw [ihu, ihuc]
        · rw [List.getElem?_set_ne (fun h => hj' h.symm), ihval j hj]
          unfold mixedVal
          by_cases hju : isUnif types j
          · rw [if_pos hju, if_pos hju]
            have : (j < k + 1) ↔ (j < k) := by omega
            by_cases hjk : j < k
            · rw [if_pos (this.mpr hjk), if_pos hjk]
            · rw [if_neg (fun h => hjk (this.mp h)), if_neg hjk]
          · rw [if_neg hju, if_neg hju, gaussContrib_succ, if_pos hk]
    · rw [if_neg hk]
      unfold drawGauss gaussRowUpdate
      refine ⟨ihg, ihu, ?_, ?_, ?_, ?_⟩
      · simp [ihgc, gaussCount_succ, hk]
        omega
      · simpa [unifCount_succ, hk] using ihuc
      · simpa [updLoop_length] using ihlen
      · intro j hj
        rw [updLoop_getElem?, ihlen]
        by_cases hju : isUnif types j
        · rw [if_neg (by simp [hju]), ihval j hj]
          unfold mixedVal
          rw [if_pos hju, if_pos hju]
          have hjk : j ≠ k := fun h => hk (h ▸ hju)
          have : (j < k + 1) ↔ (j < k) := by omega
          by_cases hjlt : j < k
          · rw [if_pos (this.mpr hjlt), if_pos hjlt]
          · rw [if_neg (fun h => hjlt (this.mp h)), if_neg hjlt]
        · rw [if_pos (by simp [hju, hj]), ihval j hj]
          unfold mixedVal
          rw [if_neg hju, if_neg hju]
          rw [gaussContrib_succ, if_neg hk, ihg, ihgc]
          simp only [Option.map_eq_map, Option.map_some', Option.some.injEq]
          ring

/-- C6: in every generated proposal, exactly one standard-normal variate is
consumed per Gaussian-typed row (gCount advances by gaussCount, so
Uniform-typed rows draw none), every Gaussian-typed column j ends at
current[j] plus gaussContrib, in which each Gaussian row i contributes
sigma * r_i * U(i,j) with the SAME single scalar r_i (the stream value at
position gCount + gaussCount i) for every column j of the row, and every
Uniform-typed column holds exactly its own fresh uniform draw, with no
Gaussian contribution. -/
theorem adaptive_proposal_single_shared_normal (types : List ProposalType)
    (sigma : ℚ) (U : ℕ → ℕ → ℚ) (current : List ℚ) (rng : Rng)
    (hlen : types.length = current.length) :
    (proposeStepBody types sigma U current rng).2.gCount =
      rng.gCount + gaussCount types current.length ∧
    (proposeStepBody types sigma U current rng).2.uCount =
      rng.uCount + unifCount types current.length ∧
    (∀ j, j < current.length → isUnif types j = false →
      (proposeStepBody types sigma U current rng).1[j]? =
        some (current.getD j 0 +
          gaussContrib types sigma U rng.gaussStream rng.gCount current.length j)) ∧
    (∀ j, j < current.length → isUnif types j = true →
      (proposeStepBody types sigma U current rng).1[j]? =
        some (unifValue types rng.unifStream rng.uCount j)) := by
  obtain ⟨hg, hu, hgc, huc, hlen2, hval⟩ :=
    proposeLoopAux_spec types sigma U current rng current.length
  refine ⟨hgc, huc, ?_, ?_⟩
  · intro j hj hju
    unfold proposeStepBody
    rw [hval j hj]
    unfold mixedVal
    rw [if_neg (by simp [hju])]
  · intro j hj hju
    unfold proposeStepBody
    rw [hval j hj]
    unfold mixedVal
    rw [if_pos hju, if_pos hj]

/-- C6 witness: a two-dimensional sampler with dimension 0 Uniform and
dimension 1 Gaussian consumes one normal draw and gives the Gaussian column
its characterised correlated value. -/
theorem adaptive_proposal_single_shared_normal_witness :
    ([⟨1, 0, 1⟩, ⟨0, 0, 0⟩] : List ProposalType).length = ([0, 0] : List ℚ).length ∧
    (proposeStepBody [⟨1, 0, 1⟩, ⟨0, 0, 0⟩] 1 (fun _ _ => 1) [0, 0]
        ⟨fun _ => 1/2, fun _ => 1/3, 0, 0⟩).2.gCount =
      0 + gaussCount [⟨1, 0, 1⟩, ⟨0, 0, 0⟩] 2 ∧
    (proposeStepBody [⟨1, 0, 1⟩, ⟨0, 0, 0⟩] 1 (fun _ _ => 1) [0, 0]
        ⟨fun _ => 1/2, fun _ => 1/3, 0, 0⟩).1[1]? =
      some (([0, 0] : List ℚ).getD 1 0 +
        gaussContrib [⟨1, 0, 1⟩, ⟨0, 0, 0⟩] 1 (fun _ _ => 1) (fun _ => 1/2) 0 2 1) :=
  ⟨rfl,
    (adaptive_proposal_single_shared_normal [⟨1, 0, 1⟩, ⟨0, 0, 0⟩] 1 (fun _ _ => 1)
      [0, 0] ⟨fun _ => 1/2, fun _ => 1/3, 0, 0⟩ rfl).1,
    (adaptive_proposal_single_shared_normal [⟨1, 0, 1⟩, ⟨0, 0, 0⟩] 1 (fun _ _ => 1)
      [0, 0] ⟨fun _ => 1/2, fun _ => 1/3, 0, 0⟩ rfl).2.2.1 1 (by decide) (by decide)⟩

/-- C7: every Uniform-typed dimension i with bounds param1 < param2 ends at
exactly its own fresh uniform draw mapped into the bounds (so the correlated
Gaussian update contributes nothing to it), and, for raw uniform stream values
in [0,1), the resulting proposal entry lies in [param1, param2). -/
theorem uniform_dimension_in_bounds (types : List ProposalType) (sigma : ℚ)
    (U : ℕ → ℕ → ℚ) (current : List ℚ) (rng : Rng) (i : ℕ)
    (hlen : types.length = current.length)
    (hi : i < current.length) (hiu : isUnif types i = true)
    (hb : (ptypeAt types i).param1 < (ptypeAt types i).param2)
    (hs : ∀ n, 0 ≤ rng.unifStream n ∧ rng.unifStream n < 1) :
    (proposeStepBody types sigma U current rng).1[i]? =
      some (unifValue types rng.unifStream rng.uCount i) ∧
    (ptypeAt types i).param1 ≤ unifValue types rng.unifStream rng.uCount i ∧
    unifValue types rng.unifStream rng.uCount i < (ptypeAt types i).param2 := by
  obtain ⟨hg, hu, hgc, huc, hlen2, hval⟩ :=
    proposeLoopAux_spec types sigma U current rng current.length
  obtain ⟨h0, h1⟩ := hs (rng.uCount + unifCount types i)
  refine ⟨?_, ?_, ?_⟩
  · unfold proposeStepBody
    rw [hval i hi]
    unfold mixedVal
    rw [if_pos hiu, if_pos hi]
  · unfold unifValue
    have hnn : 0 ≤ ((ptypeAt types i).param2 - (ptypeAt types i).param1) *
        rng.unifStream (rng.uCount + unifCount types i) :=
      mul_nonneg (by linarith) h0
    linarith
  · unfold unifValue
    have hlt : ((ptypeAt types i).param2 - (ptypeAt types i).param1) *
        rng.unifStream (rng.uCount + unifCount types i) <
        ((ptypeAt types i).param2 - (ptypeAt types i).param1) * 1 :=
      mul_lt_mul_of_pos_left h1 (by linarith)
    linarith

/-- C7 witness: dimension 0 Uniform on [0,1) with raw draw 1/3 lands at 1/3,
inside the bounds. -/
theorem uniform_dimension_in_bounds_witness :
    isUnif [⟨1, 0, 1⟩, ⟨0, 0, 0⟩] 0 = true ∧
    ((proposeStepBody [⟨1, 0, 1⟩, ⟨0, 0, 0⟩] 1 (fun _ _ => 1) [0, 0]
        ⟨fun _ => 1/2, fun _ => 1/3, 0, 0⟩).1[0]? =
      some (unifValue [⟨1, 0, 1⟩, ⟨0, 0, 0⟩] (fun _ => 1/3) 0 0) ∧
    (ptypeAt [⟨1, 0, 1⟩, ⟨0, 0, 0⟩] 0).param1 ≤
      unifValue [⟨1, 0, 1⟩, ⟨0, 0, 0⟩] (fun _ => 1/3) 0 0 ∧
    unifValue [⟨1, 0, 1⟩, ⟨0, 0, 0⟩] (fun _ => 1/3) 0 0 <
      (ptypeAt [⟨1, 0, 1⟩, ⟨0, 0, 0⟩] 0).param2) :=
  ⟨by decide,
    uniform_dimension_in_bounds [⟨1, 0, 1⟩, ⟨0, 0, 0⟩] 1 (fun _ _ => 1) [0, 0]
      ⟨fun _ => 1/2, fun _ => 1/3, 0, 0⟩ 0 rfl (by decide) (by decide)
      (by norm_num [ptypeAt]) (fun n => by norm_num)⟩

/-- Deweighting state of TProposeAdaptiveStep touched by lines 442-450 of
UpdateProposal: fCovarianceTrials, fAcceptanceTrials and the two windows. -/
structure AdaptState where
  covarianceTrials : ℚ
  acceptanceTrials : ℚ
  covarianceWindow : ℚ
  acceptanceWindow : ℚ
deriving DecidableEq

/-- Lines 442-450 of TProposeAdaptiveStep::UpdateProposal, executed
unconditionally before the Cholesky decomposition attempt: deweight the
covariance trials (max with 1000, then min with a tenth of the window) and
symmetrically the acceptance trials. -/
def updateProposalDeweight (s : AdaptState) : AdaptState :=
  let ct1 := max 1000 (0.1 * s.covarianceTrials)
  let ct2 := min ct1 (0.1 * s.covarianceWindow)
  let at1 := max 1000 (0.1 * s.acceptanceTrials)
  let at2 := min at1 (0.1 * s.acceptanceWindow)
  { s with covarianceTrials := ct2, acceptanceTrials := at2 }

/-- C8: on every call, the deweighting of UpdateProposal sets the covariance
trials to max(1000, 0.1 * old) clamped above by 0.1 * covariance window, and
symmetrically the acceptance trials, leaving the windows unchanged. -/
theorem updateProposalDeweight_clamps (s : AdaptState) :
    (updateProposalDeweight s).covarianceTrials =
      min (max 1000 (0.1 * s.covarianceTrials)) (0.1 * s.covarianceWindow) ∧
    (updateProposalDeweight s).acceptanceTrials =
      min (max 1000 (0.1 * s.acceptanceTrials)) (0.1 * s.acceptanceWindow) ∧
    (updateProposalDeweight s).covarianceWindow = s.covarianceWindow ∧
    (updateProposalDeweight s).acceptanceWindow = s.acceptanceWindow :=
  ⟨rfl, rfl, rfl, rfl⟩

/-- Lines 641-642 of TProposeAdaptiveStep::UpdateState: the proposal width is
rescaled by (acceptance / target) to the exponent min(0.001,
0.5 / acceptanceWindow).  Stated over the reals because of the real-valued
exponentiation std::pow. -/
noncomputable def updateSigmaScale
    (sigma acceptance targetAcceptance acceptanceWindow : ℝ) : ℝ :=
  sigma * (acceptance / targetAcceptance) ^ (min (0.001 : ℝ) (0.5 / acceptanceWindow))

/-- C9: a current acceptance equal to the (nonzero) target acceptance is a
fixed point of the scale update: sigma is left unchanged, whatever the
acceptance window. -/
theorem updateSigmaScale_fixed_point
    (sigma acceptance targetAcceptance acceptanceWindow : ℝ)
    (ht : targetAcceptance ≠ 0) (h : acceptance = targetAcceptance) :
    updateSigmaScale sigma acceptance targetAcceptance acceptanceWindow = sigma := by
  subst h
  unfold updateSigmaScale
  rw [div_self ht, Real.one_rpow, mul_one]

/-- C9 witness: at the default target acceptance 0.44 and a window of 1044,
an acceptance of exactly 0.44 leaves sigma = 2 unchanged. -/
theorem updateSigmaScale_fixed_point_witness :
    (0.44 : ℝ) ≠ 0 ∧ updateSigmaScale 2 0.44 0.44 1044 = 2 :=
  ⟨by norm_num, updateSigmaScale_fixed_point 2 0.44 0.44 1044 (by norm_num) rfl⟩

end SimpleMCMC
